import Mathlib

-- Verification development for the task-management pattern demo:
-- shallow embedding of the Strategy (sort/filter), Composite (task tree)
-- and Singleton (configuration) modules, plus the Task class hierarchy.

set_option maxHeartbeats 1000000

namespace TaskApp

-- ---------------------------------------------------------------------------
-- Task model (Task class hierarchy in the source).
-- A Task carries id, title, description, status, a category label reported by
-- getType, and a creation timestamp (getTime value in milliseconds).
-- ---------------------------------------------------------------------------

structure Task where
  id : Nat
  title : String
  description : String
  status : String
  type : String
  createdAt : Int
deriving DecidableEq

-- Category labels returned by getType in the concrete Task subclasses.

def genericTypeLabel : String := "Tarefa Genérica"

def personalTypeLabel : String := "Pessoal"

def workTypeLabel : String := "Trabalho"

def studyTypeLabel : String := "Estudo"

def volunteerTypeLabel : String := "Trabalho Voluntário"

-- ---------------------------------------------------------------------------
-- Models of the JavaScript string primitives used by the strategy code.
-- ---------------------------------------------------------------------------

-- Model of String.prototype.startsWith.
def jsStartsWith (s pre : String) : Bool :=
  pre.data.isPrefixOf s.data

-- Model of String.prototype.split(sep): splitAux walks the characters,
-- accumulating the current field in reverse.
def splitAux (sep : Char) : List Char → List Char → List (List Char)
  | [], acc => [acc.reverse]
  | c :: rest, acc =>
    if c = sep then acc.reverse :: splitAux sep rest []
    else splitAux sep rest (c :: acc)

def jsSplit (sep : Char) (s : String) : List String :=
  (splitAux sep s.data []).map String.mk

-- Model of String.prototype.includes: substring occurrence test.
def isInfixList (needle : List Char) : List Char → Bool
  | [] => needle.isEmpty
  | c :: rest => needle.isPrefixOf (c :: rest) || isInfixList needle rest

def jsIncludes (hay needle : String) : Bool :=
  isInfixList needle.data hay.data

-- Model of String.prototype.localeCompare as a three-way comparison.
def localeCompare (a b : String) : Int :=
  match compare a b with
  | .lt => -1
  | .eq => 0
  | .gt => 1

-- ---------------------------------------------------------------------------
-- Sort strategies (strategy.js).  Each comparator mirrors one concrete
-- SortStrategy subclass; the JS sort `[...tasks].sort(cmp)` is modelled as a
-- stable merge sort of a copy, ordering a before b when cmp a b ≤ 0.
-- ---------------------------------------------------------------------------

inductive SortStrategyKind where
  | dateNewest
  | dateOldest
  | alphaAZ
  | alphaZA
  | statusPending
  | statusComplete
  | taskType
deriving DecidableEq

def cmpDateNewest (a b : Task) : Int := b.createdAt - a.createdAt

def cmpDateOldest (a b : Task) : Int := a.createdAt - b.createdAt

def cmpAlphaAZ (a b : Task) : Int := localeCompare a.title b.title

def cmpAlphaZA (a b : Task) : Int := localeCompare b.title a.title

-- Rank table of StatusPendingFirstStrategy; none models an absent key.
def statusOrderPendingFirst : String → Option Int
  | "Pendente" => some 0
  | "Em Andamento" => some 1
  | "Concluída" => some 2
  | _ => none

-- Rank table of StatusCompletedFirstStrategy.
def statusOrderCompletedFirst : String → Option Int
  | "Concluída" => some 0
  | "Em Andamento" => some 1
  | "Pendente" => some 2
  | _ => none

-- Subtracting an undefined rank yields NaN in JS; the sort treats a NaN
-- comparator result as 0.
def cmpStatusPending (a b : Task) : Int :=
  match statusOrderPendingFirst a.status, statusOrderPendingFirst b.status with
  | some x, some y => x - y
  | _, _ => 0

def cmpStatusComplete (a b : Task) : Int :=
  match statusOrderCompletedFirst a.status, statusOrderCompletedFirst b.status with
  | some x, some y => x - y
  | _, _ => 0

def cmpTaskType (a b : Task) : Int := localeCompare a.type b.type

def cmpOf : SortStrategyKind → Task → Task → Int
  | .dateNewest => cmpDateNewest
  | .dateOldest => cmpDateOldest
  | .alphaAZ => cmpAlphaAZ
  | .alphaZA => cmpAlphaZA
  | .statusPending => cmpStatusPending
  | .statusComplete => cmpStatusComplete
  | .taskType => cmpTaskType

-- Model of `[...tasks].sort(cmp)`: a stable sort of a copy of the input.
def jsSortCopy (cmp : Task → Task → Int) (tasks : List Task) : List Task :=
  tasks.mergeSort (fun a b => decide (cmp a b ≤ 0))

def sortApply (s : SortStrategyKind) (tasks : List Task) : List Task :=
  jsSortCopy (cmpOf s) tasks

-- ---------------------------------------------------------------------------
-- Filter strategies (strategy.js).  The two parameterized strategies carry
-- their parameter; SearchFilterStrategy stores the search text already
-- lowercased, as its constructor does.
-- ---------------------------------------------------------------------------

inductive FilterStrategy where
  | showAll
  | pending
  | inProgress
  | completed
  | typeFilter (type : String)
  | searchFilter (searchText : String)
deriving DecidableEq

def filterApply : FilterStrategy → List Task → List Task
  | .showAll, tasks => tasks
  | .pending, tasks => tasks.filter (fun t => t.status == "Pendente")
  | .inProgress, tasks => tasks.filter (fun t => t.status == "Em Andamento")
  | .completed, tasks => tasks.filter (fun t => t.status == "Concluída")
  | .typeFilter ty, tasks => tasks.filter (fun t => t.type == ty)
  | .searchFilter st, tasks =>
    tasks.filter (fun t =>
      jsIncludes t.title.toLower st || jsIncludes t.description.toLower st)

-- ---------------------------------------------------------------------------
-- TaskSorterFilterer (the Strategy context).
-- ---------------------------------------------------------------------------

-- The fixed registry of sort strategies, keyed by string.
def sortStrategies (key : String) : Option SortStrategyKind :=
  if key = "date-newest" then some .dateNewest
  else if key = "date-oldest" then some .dateOldest
  else if key = "alpha-az" then some .alphaAZ
  else if key = "alpha-za" then some .alphaZA
  else if key = "status-pending" then some .statusPending
  else if key = "status-complete" then some .statusComplete
  else if key = "type" then some .taskType
  else none

-- The fixed registry of filter strategies, keyed by string.
def filterStrategies (key : String) : Option FilterStrategy :=
  if key = "all" then some .showAll
  else if key = "pending" then some .pending
  else if key = "in-progress" then some .inProgress
  else if key = "completed" then some .completed
  else none

structure TaskSorterFilterer where
  currentSortStrategy : SortStrategyKind
  currentFilterStrategy : FilterStrategy
deriving DecidableEq

-- Constructor defaults: date-newest sort, show-all filter.
def initSorterFilterer : TaskSorterFilterer :=
  { currentSortStrategy := .dateNewest, currentFilterStrategy := .showAll }

def setSortStrategy (t : TaskSorterFilterer) (key : String) :
    TaskSorterFilterer × Bool :=
  match sortStrategies key with
  | some s => ({ t with currentSortStrategy := s }, true)
  | none => (t, false)

def setFilterStrategy (t : TaskSorterFilterer) (key : String) :
    TaskSorterFilterer × Bool :=
  match filterStrategies key with
  | some s => ({ t with currentFilterStrategy := s }, true)
  | none =>
    if jsStartsWith key "type:" then
      ({ t with currentFilterStrategy :=
          .typeFilter ((jsSplit ':' key).getD 1 "") }, true)
    else if jsStartsWith key "search:" then
      ({ t with currentFilterStrategy :=
          .searchFilter (((jsSplit ':' key).getD 1 "").toLower) }, true)
    else (t, false)

-- process: first filter, then sort, with the current strategies.
def process (t : TaskSorterFilterer) (tasks : List Task) : List Task :=
  let filteredTasks := filterApply t.currentFilterStrategy tasks
  sortApply t.currentSortStrategy filteredTasks

-- Call models tracking the contents of the argument array after the call.
-- ShowAllFilterStrategy returns the received array itself; every other filter
-- builds a fresh array with Array.prototype.filter; every sort strategy
-- spreads the input into a copy before sorting, so the argument is untouched.
def filterCall (f : FilterStrategy) (tasks : List Task) :
    List Task × List Task :=
  (filterApply f tasks, tasks)

def sortCall (s : SortStrategyKind) (tasks : List Task) :
    List Task × List Task :=
  (sortApply s tasks, tasks)

def processCall (t : TaskSorterFilterer) (tasks : List Task) :
    List Task × List Task :=
  let fc := filterCall t.currentFilterStrategy tasks
  let sc := sortCall t.currentSortStrategy fc.1
  (sc.1, fc.2)

-- ---------------------------------------------------------------------------
-- ConfigurationManager (singleton.js).  The configuration object is an
-- association list; notifications are recorded as an event log of
-- (key, value) pairs, value none standing for the null of the reset event.
-- ---------------------------------------------------------------------------

inductive ConfigValue where
  | str (s : String)
  | bool (b : Bool)
  | num (n : Int)
deriving DecidableEq

def defaultConfig : List (String × ConfigValue) :=
  [("theme", .str "light"),
   ("language", .str "pt-BR"),
   ("showCompletedTasks", .bool true),
   ("autoSave", .bool true),
   ("notificationTimeout", .num 3000),
   ("maxNotificationsHistory", .num 10),
   ("defaultTaskColor", .str "blue"),
   ("defaultTaskType", .str "personal"),
   ("sidebarCollapsed", .bool false)]

structure ConfigurationManager where
  config : List (String × ConfigValue)
  events : List (String × Option ConfigValue)
deriving DecidableEq

def initConfigManager : ConfigurationManager :=
  { config := defaultConfig, events := [] }

def notifyConfigChange (m : ConfigurationManager) (key : String)
    (value : Option ConfigValue) : ConfigurationManager :=
  { m with events := m.events ++ [(key, value)] }

def getConfig (m : ConfigurationManager) (key : String) : Option ConfigValue :=
  (m.config.find? (fun p => p.1 == key)).map (fun p => p.2)

-- Model of `key in this.config`.
def configHasKey (m : ConfigurationManager) (key : String) : Bool :=
  (m.config.find? (fun p => p.1 == key)).isSome

def setConfig (m : ConfigurationManager) (key : String) (value : ConfigValue) :
    ConfigurationManager × Bool :=
  if configHasKey m key then
    (notifyConfigChange
      { m with config := m.config.map (fun p => if p.1 == key then (p.1, value) else p) }
      key (some value), true)
  else
    (m, false)

def resetToDefaults (m : ConfigurationManager) : ConfigurationManager :=
  notifyConfigChange { m with config := defaultConfig } "all" none

-- ---------------------------------------------------------------------------
-- Composite task tree (composite.js).  A TaskLeaf wraps one task (its id and
-- title copied from the task); a TaskGroup has an id, a title and an ordered
-- list of children.  The color, expanded flag and creation date of a group
-- play no role in the operations verified here.
-- ---------------------------------------------------------------------------

inductive TaskComponent where
  | leaf (task : Task)
  | group (id : Nat) (title : String) (children : List TaskComponent)

namespace TaskComponent

def getId : TaskComponent → Nat
  | .leaf t => t.id
  | .group gid _ _ => gid

def isComposite : TaskComponent → Bool
  | .leaf _ => false
  | .group _ _ _ => true

-- getTaskCount: a leaf counts 1; a group folds over its children from 0.
mutual

def getTaskCount : TaskComponent → Nat
  | .leaf _ => 1
  | .group _ _ cs => getTaskCountFold 0 cs

def getTaskCountFold : Nat → List TaskComponent → Nat
  | total, [] => total
  | total, c :: cs => getTaskCountFold (total + getTaskCount c) cs

end

-- getAllLeaves: depth-first collection of the leaves of a group; the leaf
-- equation is never reached by the source (only composites recurse).
mutual

def getAllLeaves : TaskComponent → List TaskComponent
  | .leaf _ => []
  | .group _ _ cs => getAllLeavesList cs

def getAllLeavesList : List TaskComponent → List TaskComponent
  | [] => []
  | c :: cs =>
    (if c.isComposite then getAllLeaves c else [c]) ++ getAllLeavesList cs

end

-- getChild: for each child in order, compare its id, and if it is a group
-- recurse fully into it before moving to the next sibling.
mutual

def getChild (id : Nat) : TaskComponent → Option TaskComponent
  | .leaf _ => none
  | .group _ _ cs => getChildList id cs

def getChildList (id : Nat) : List TaskComponent → Option TaskComponent
  | [] => none
  | c :: cs =>
    if c.getId = id then some c
    else if c.isComposite then
      match getChild id c with
      | some result => some result
      | none => getChildList id cs
    else getChildList id cs

end

-- remove: filter the direct children by id; if nothing was removed, try the
-- composite children in order until one reports success.  The result pairs
-- the component after the call with the returned boolean.
mutual

def removeComp (id : Nat) : TaskComponent → TaskComponent × Bool
  | .leaf t => (.leaf t, false)
  | .group gid title cs =>
    (.group gid title (removeGroup id cs).1, (removeGroup id cs).2)
termination_by c => 2 * sizeOf c

def removeGroup (id : Nat) (cs : List TaskComponent) :
    List TaskComponent × Bool :=
  if h : (cs.filter (fun c => !(c.getId == id))).length = cs.length then
    removeSub id (cs.filter (fun c => !(c.getId == id)))
  else
    (cs.filter (fun c => !(c.getId == id)), true)
termination_by 2 * sizeOf cs + 1
decreasing_by
  have hfe : cs.filter (fun c => !(c.getId == id)) = cs :=
    List.Sublist.eq_of_length (List.filter_sublist cs) h
  simp [hfe]

def removeSub (id : Nat) : List TaskComponent → List TaskComponent × Bool
  | [] => ([], false)
  | c :: cs =>
    if c.isComposite then
      if (removeComp id c).2 then
        ((removeComp id c).1 :: cs, true)
      else
        ((removeComp id c).1 :: (removeSub id cs).1, (removeSub id cs).2)
    else
      (c :: (removeSub id cs).1, (removeSub id cs).2)
termination_by cs => 2 * sizeOf cs

end

-- allIds: every id occurring in a subtree, the root id first.
mutual

def allIds : TaskComponent → List Nat
  | .leaf t => [t.id]
  | .group gid _ cs => gid :: allIdsList cs

def allIdsList : List TaskComponent → List Nat
  | [] => []
  | c :: cs => allIds c ++ allIdsList cs

end

-- innerIds: the ids of the proper descendants of a component.
def innerIds : TaskComponent → List Nat
  | .leaf _ => []
  | .group _ _ cs => allIdsList cs

-- preorder: the proper descendants of a component in the visiting order of
-- getChild (each child before its own descendants, siblings in order).
mutual

def preorder : TaskComponent → List TaskComponent
  | .leaf _ => []
  | .group _ _ cs => preorderList cs

def preorderList : List TaskComponent → List TaskComponent
  | [] => []
  | c :: cs => c :: (preorder c ++ preorderList cs)

end

def titleOf : TaskComponent → String
  | .leaf t => t.title
  | .group _ title _ => title

end TaskComponent

-- A concrete task constructor shared by the concrete trees below.
def mkTask (id : Nat) (title : String) : Task :=
  { id := id, title := title, description := "", status := "Pendente",
    type := genericTypeLabel, createdAt := 0 }

-- A tree whose direct child with id 2 is shadowed by a deeper component with
-- the same id inside an earlier sibling group.
def shadowTree : TaskComponent :=
  .group 0 "root"
    [.group 1 "g" [.leaf (mkTask 2 "deep")],
     .leaf (mkTask 2 "shallow")]

-- A small tree with distinct ids used to instantiate the remove result.
def sampleTree : TaskComponent :=
  .group 0 "root"
    [.leaf (mkTask 1 "a"),
     .group 2 "sub" [.leaf (mkTask 3 "b")]]

-- A Personal task titled Shop, as in the exclusion scenario.
def shopTask : Task :=
  { id := 10, title := "Shop", description := "", status := "Pendente",
    type := personalTypeLabel, createdAt := 0 }

-- ---------------------------------------------------------------------------
-- Helper lemmas about the configuration store.
-- ---------------------------------------------------------------------------

theorem find?_isSome_iff_mem_keys (l : List (String × ConfigValue)) (key : String) :
    (l.find? (fun p => p.1 == key)).isSome = true ↔ key ∈ l.map Prod.fst := by
  induction l with
  | nil => simp
  | cons c rest ih =>
    by_cases hc : c.1 = key
    · rw [List.find?_cons_of_pos _ (by simp [hc])]
      simp [hc]
    · rw [List.find?_cons_of_neg _ (by simp [hc])]
      simp only [List.map_cons, List.mem_cons, ih]
      constructor
      · exact Or.inr
      · rintro (h | h)
        · exact absurd h.symm hc
        · exact h

theorem find?_map_update (l : List (String × ConfigValue)) (key : String)
    (value : ConfigValue)
    (h : (l.find? (fun p => p.1 == key)).isSome = true) :
    ((l.map (fun p => if p.1 == key then (p.1, value) else p)).find?
        (fun p => p.1 == key)).map (fun p => p.2) = some value := by
  induction l with
  | nil => simp at h
  | cons c rest ih =>
    by_cases hc : c.1 = key
    · simp only [List.map_cons, if_pos (by simp [hc] : (c.1 == key) = true)]
      rw [List.find?_cons_of_pos _ (by simp [hc])]
      rfl
    · simp only [List.map_cons, if_neg (by simp [hc] : ¬((c.1 == key) = true))]
      rw [List.find?_cons_of_neg _ (by simp [hc])]
      rw [List.find?_cons_of_neg _ (by simp [hc])] at h
      exact ih h

/-- C7: setConfig succeeds, stores the value and appends a change notification
exactly when the key is one of the nine keys of the default configuration; for
any other key it reports failure and leaves the manager unchanged. -/
theorem setConfig_success_iff_default_key (m : ConfigurationManager)
    (key : String) (value : ConfigValue)
    (hkeys : m.config.map Prod.fst = defaultConfig.map Prod.fst) :
    ((setConfig m key value).2 = true ↔ key ∈ defaultConfig.map Prod.fst) ∧
    ((setConfig m key value).2 = true →
      getConfig (setConfig m key value).1 key = some value ∧
      (setConfig m key value).1.events = m.events ++ [(key, some value)]) ∧
    ((setConfig m key value).2 = false → (setConfig m key value).1 = m) := by
  have hiff : configHasKey m key = true ↔ key ∈ defaultConfig.map Prod.fst := by
    rw [← hkeys]
    exact find?_isSome_iff_mem_keys m.config key
  by_cases h : configHasKey m key = true
  · refine ⟨by simp [setConfig, h, hiff.mp h], fun _ => ⟨?_, ?_⟩, fun hf => ?_⟩
    · simp only [setConfig, if_pos h, getConfig, notifyConfigChange]
      exact find?_map_update m.config key value h
    · simp [setConfig, if_pos h, notifyConfigChange]
    · simp [setConfig, if_pos h] at hf
  · have h' : configHasKey m key = false := by
      cases hck : configHasKey m key
      · rfl
      · exact absurd hck h
    refine ⟨?_, fun ht => ?_, fun _ => ?_⟩
    · simp only [setConfig, h', Bool.false_eq_true, if_false]
      simpa using fun hm => h (hiff.mpr hm)
    · simp [setConfig, h'] at ht
    · simp [setConfig, h']

/-- C7 witness: the theorem instantiated at the initial manager and the key
theme with value dark. -/
theorem setConfig_success_iff_default_key_witness :
    (((setConfig initConfigManager "theme" (.str "dark")).2 = true ↔
        "theme" ∈ defaultConfig.map Prod.fst) ∧
    ((setConfig initConfigManager "theme" (.str "dark")).2 = true →
      getConfig (setConfig initConfigManager "theme" (.str "dark")).1 "theme" =
          some (.str "dark") ∧
      (setConfig initConfigManager "theme" (.str "dark")).1.events =
        initConfigManager.events ++ [("theme", some (.str "dark"))]) ∧
    ((setConfig initConfigManager "theme" (.str "dark")).2 = false →
      (setConfig initConfigManager "theme" (.str "dark")).1 = initConfigManager)) :=
  setConfig_success_iff_default_key initConfigManager "theme" (.str "dark") rfl

/-- C8: after resetToDefaults, getConfig returns the documented default value
for each of the nine default keys, whatever the previous state was. -/
theorem resetToDefaults_restores_documented_defaults (m : ConfigurationManager) :
    getConfig (resetToDefaults m) "theme" = some (.str "light") ∧
    getConfig (resetToDefaults m) "language" = some (.str "pt-BR") ∧
    getConfig (resetToDefaults m) "showCompletedTasks" = some (.bool true) ∧
    getConfig (resetToDefaults m) "autoSave" = some (.bool true) ∧
    getConfig (resetToDefaults m) "notificationTimeout" = some (.num 3000) ∧
    getConfig (resetToDefaults m) "maxNotificationsHistory" = some (.num 10) ∧
    getConfig (resetToDefaults m) "defaultTaskColor" = some (.str "blue") ∧
    getConfig (resetToDefaults m) "defaultTaskType" = some (.str "personal") ∧
    getConfig (resetToDefaults m) "sidebarCollapsed" = some (.bool false) :=
  ⟨rfl, rfl, rfl, rfl, rfl, rfl, rfl, rfl, rfl⟩

-- ---------------------------------------------------------------------------
-- Strategy context: permutation, key lookup, processing order.
-- ---------------------------------------------------------------------------

theorem sortApply_perm (s : SortStrategyKind) (tasks : List Task) :
    (sortApply s tasks).Perm tasks :=
  List.mergeSort_perm tasks _

/-- C3: with the show-all filter current and any registered sort strategy
current, process returns a permutation of its input, so in particular the
length is preserved. -/
theorem process_showAll_perm (s : SortStrategyKind) (tasks : List Task) :
    (process { currentSortStrategy := s, currentFilterStrategy := .showAll }
        tasks).Perm tasks ∧
    (process { currentSortStrategy := s, currentFilterStrategy := .showAll }
        tasks).length = tasks.length := by
  have hp : (process { currentSortStrategy := s, currentFilterStrategy := .showAll }
      tasks).Perm tasks := sortApply_perm s tasks
  exact ⟨hp, hp.length_eq⟩

/-- C4 counterexample: the key type:Work is not in the filter registry, yet
setFilterStrategy reports success on it, so success is not equivalent to
registry membership. -/
theorem setFilterStrategy_succeeds_on_unregistered_key :
    filterStrategies "type:Work" = none ∧
    (setFilterStrategy initSorterFilterer "type:Work").2 = true :=
  ⟨rfl, rfl⟩

/-- C4 amended: setSortStrategy succeeds exactly on registered sort keys;
setFilterStrategy succeeds exactly on registered filter keys or keys starting
with type: or search:; every failing call leaves the context unchanged. -/
theorem setStrategy_key_semantics (t : TaskSorterFilterer) (key : String) :
    ((setSortStrategy t key).2 = (sortStrategies key).isSome) ∧
    ((sortStrategies key).isSome = false → setSortStrategy t key = (t, false)) ∧
    ((setFilterStrategy t key).2 =
      ((filterStrategies key).isSome || jsStartsWith key "type:" ||
        jsStartsWith key "search:")) ∧
    (((filterStrategies key).isSome || jsStartsWith key "type:" ||
        jsStartsWith key "search:") = false →
      setFilterStrategy t key = (t, false)) := by
  refine ⟨?_, ?_, ?_, ?_⟩
  · cases hs : sortStrategies key <;> simp [setSortStrategy, hs]
  · intro hns
    cases hs : sortStrategies key
    · simp [setSortStrategy, hs]
    · rw [hs] at hns
      simp at hns
  · cases hf : filterStrategies key
    · simp only [setFilterStrategy, hf, Option.isSome_none, Bool.false_or]
      by_cases hty : jsStartsWith key "type:"
      · simp [hty]
      · by_cases hse : jsStartsWith key "search:" <;>
          simp [hty, hse]
    · simp [setFilterStrategy, hf]
  · intro hnf
    cases hf : filterStrategies key
    · rw [hf] at hnf
      simp only [Option.isSome_none, Bool.false_or, Bool.or_eq_false_iff] at hnf
      simp [setFilterStrategy, hf, hnf.1, hnf.2]
    · rw [hf] at hnf
      simp at hnf

/-- C4 amended witness: the theorem instantiated at the initial context and a
key registered in neither registry. -/
theorem setStrategy_key_semantics_witness :
    ((setSortStrategy initSorterFilterer "bogus").2 =
      (sortStrategies "bogus").isSome) ∧
    ((sortStrategies "bogus").isSome = false →
      setSortStrategy initSorterFilterer "bogus" = (initSorterFilterer, false)) ∧
    ((setFilterStrategy initSorterFilterer "bogus").2 =
      ((filterStrategies "bogus").isSome || jsStartsWith "bogus" "type:" ||
        jsStartsWith "bogus" "search:")) ∧
    (((filterStrategies "bogus").isSome || jsStartsWith "bogus" "type:" ||
        jsStartsWith "bogus" "search:") = false →
      setFilterStrategy initSorterFilterer "bogus" = (initSorterFilterer, false)) :=
  setStrategy_key_semantics initSorterFilterer "bogus"

/-- C6: process applies the current filter strategy first and the current sort
strategy to its result; the returned sequence is a permutation of the filter
output produced by the sort, and the contents of the input sequence after the
call are the contents it had before. -/
theorem process_filter_then_sort (t : TaskSorterFilterer) (tasks : List Task) :
    process t tasks =
      sortApply t.currentSortStrategy
        (filterApply t.currentFilterStrategy tasks) ∧
    (process t tasks).Perm (filterApply t.currentFilterStrategy tasks) ∧
    processCall t tasks = (process t tasks, tasks) :=
  ⟨rfl, sortApply_perm _ _, rfl⟩

-- ---------------------------------------------------------------------------
-- Parameterized filter keys: helper lemmas about the string primitives.
-- ---------------------------------------------------------------------------

theorem splitAux_head (sep : Char) (l : List Char) : ∀ acc,
    (splitAux sep l acc).head? =
      some (acc.reverse ++ l.takeWhile (fun c => !(c == sep))) := by
  induction l with
  | nil => intro acc; simp [splitAux]
  | cons c rest ih =>
    intro acc
    by_cases hc : c = sep
    · simp [splitAux, hc]
    · simp [splitAux, hc, ih, List.takeWhile_cons]

theorem splitAux_exists_cons (sep : Char) (l acc : List Char) :
    ∃ tail, splitAux sep l acc =
      (acc.reverse ++ l.takeWhile (fun c => !(c == sep))) :: tail := by
  have hh := splitAux_head sep l acc
  cases hsp : splitAux sep l acc with
  | nil => rw [hsp] at hh; simp at hh
  | cons a tail =>
    rw [hsp] at hh
    simp only [List.head?_cons, Option.some.injEq] at hh
    exact ⟨tail, by rw [hh]⟩

theorem search_data (text : String) :
    ("search:" ++ text).data =
      's' :: 'e' :: 'a' :: 'r' :: 'c' :: 'h' :: ':' :: text.data := rfl

theorem ne_of_data_head (a : Char) (l : List Char) (t s : String)
    (ht : t.data = a :: l) (hs : s.data.head? ≠ some a) : t ≠ s := by
  intro h
  subst h
  rw [ht] at hs
  simp at hs

theorem search_key_unregistered (text : String) :
    filterStrategies ("search:" ++ text) = none := by
  have hd := search_data text
  have h1 : ("search:" ++ text) ≠ "all" :=
    ne_of_data_head 's' _ _ _ hd (by decide)
  have h2 : ("search:" ++ text) ≠ "pending" :=
    ne_of_data_head 's' _ _ _ hd (by decide)
  have h3 : ("search:" ++ text) ≠ "in-progress" :=
    ne_of_data_head 's' _ _ _ hd (by decide)
  have h4 : ("search:" ++ text) ≠ "completed" :=
    ne_of_data_head 's' _ _ _ hd (by decide)
  unfold filterStrategies
  rw [if_neg h1, if_neg h2, if_neg h3, if_neg h4]

theorem search_key_not_type (text : String) :
    jsStartsWith ("search:" ++ text) "type:" = false := by
  unfold jsStartsWith
  rw [search_data text]
  rfl

theorem search_key_is_search (text : String) :
    jsStartsWith ("search:" ++ text) "search:" = true := by
  unfold jsStartsWith
  rw [search_data text]
  simp [List.isPrefixOf]

theorem search_split_getD (text : String) :
    (jsSplit ':' ("search:" ++ text)).getD 1 "" =
      String.mk (text.data.takeWhile (fun c => !(c == ':'))) := by
  unfold jsSplit
  rw [search_data text]
  have hsp : splitAux ':' ('s' :: 'e' :: 'a' :: 'r' :: 'c' :: 'h' :: ':' :: text.data) [] =
      ['s', 'e', 'a', 'r', 'c', 'h'] :: splitAux ':' text.data [] := by
    simp [splitAux]
  rw [hsp]
  obtain ⟨tail, htail⟩ := splitAux_exists_cons ':' text.data []
  rw [htail]
  simp

/-- C9: selecting the key type:Work succeeds and installs the type filter with
parameter Work; afterwards process returns only tasks whose type tag is Work,
and any task of the Personal category in the input is excluded from the
result. -/
theorem typeWork_filter_excludes_non_work (t : TaskSorterFilterer)
    (tasks : List Task) :
    (setFilterStrategy t "type:Work").2 = true ∧
    (setFilterStrategy t "type:Work").1.currentFilterStrategy =
      .typeFilter "Work" ∧
    (∀ x ∈ process (setFilterStrategy t "type:Work").1 tasks,
      x.type = "Work") ∧
    (∀ x ∈ tasks, x.type = personalTypeLabel →
      x ∉ process (setFilterStrategy t "type:Work").1 tasks) := by
  have hset : (setFilterStrategy t "type:Work").1 =
      { t with currentFilterStrategy := .typeFilter "Work" } := rfl
  have hmem : ∀ x, x ∈ process (setFilterStrategy t "type:Work").1 tasks ↔
      (x ∈ tasks ∧ (x.type == "Work") = true) := by
    intro x
    rw [hset]
    unfold process
    rw [(sortApply_perm _ _).mem_iff]
    simp [filterApply, List.mem_filter]
  refine ⟨rfl, rfl, ?_, ?_⟩
  · intro x hx
    have hx2 := (hmem x).mp hx
    simpa using hx2.2
  · intro x _ hpt hcontra
    have hx2 := (hmem x).mp hcontra
    have hw : x.type = "Work" := by simpa using hx2.2
    rw [hpt] at hw
    exact absurd hw (by decide)

/-- C9 witness: the Personal task titled Shop is excluded from the processed
result once the key type:Work is selected. -/
theorem typeWork_filter_excludes_non_work_witness :
    shopTask ∉ process (setFilterStrategy initSorterFilterer "type:Work").1
      [shopTask] :=
  (typeWork_filter_excludes_non_work initSorterFilterer [shopTask]).2.2.2
    shopTask (by simp) rfl

/-- C10: a key of the form search:text installs the search filter and reports
success; the installed text is the segment of the key between the first and
second colon, lowercased, and the installed filter keeps exactly the tasks
whose lowercased title or lowercased description contains that text. -/
theorem searchKey_installs_lowercased_search (t : TaskSorterFilterer)
    (text : String) (tasks : List Task) :
    (setFilterStrategy t ("search:" ++ text)).2 = true ∧
    (setFilterStrategy t ("search:" ++ text)).1.currentFilterStrategy =
      .searchFilter
        (String.mk (text.data.takeWhile (fun c => !(c == ':')))).toLower ∧
    filterApply
        (setFilterStrategy t ("search:" ++ text)).1.currentFilterStrategy
        tasks =
      tasks.filter (fun x =>
        jsIncludes x.title.toLower
            (String.mk (text.data.takeWhile (fun c => !(c == ':')))).toLower ||
        jsIncludes x.description.toLower
            (String.mk (text.data.takeWhile (fun c => !(c == ':')))).toLower) := by
  have hset : setFilterStrategy t ("search:" ++ text) =
      ({ t with currentFilterStrategy := FilterStrategy.searchFilter (((jsSplit ':' ("search:" ++ text)).getD 1 "").toLower) }, true) := by
    unfold setFilterStrategy
    rw [search_key_unregistered text]
    simp [search_key_not_type text, search_key_is_search text]
  rw [search_split_getD text] at hset
  refine ⟨by rw [hset], by rw [hset], by rw [hset]; rfl⟩

-- ---------------------------------------------------------------------------
-- Composite tree: counting, flattening, search order.
-- ---------------------------------------------------------------------------

namespace TaskComponent

mutual

theorem getTaskCountFold_eq_length (total : Nat) (cs : List TaskComponent) :
    getTaskCountFold total cs = total + (getAllLeavesList cs).length := by
  match cs with
  | [] => simp [getTaskCountFold, getAllLeavesList]
  | c :: rest =>
    rw [show getTaskCountFold total (c :: rest) =
        getTaskCountFold (total + getTaskCount c) rest from rfl]
    rw [getTaskCountFold_eq_length (total + getTaskCount c) rest]
    rw [getTaskCount_eq_branch_length c]
    simp [getAllLeavesList, Nat.add_assoc]

theorem getTaskCount_eq_branch_length (c : TaskComponent) :
    getTaskCount c = (if c.isComposite then getAllLeaves c else [c]).length := by
  match c with
  | .leaf t => simp [getTaskCount, isComposite]
  | .group gid title cs =>
    rw [show getTaskCount (.group gid title cs) = getTaskCountFold 0 cs from rfl]
    rw [getTaskCountFold_eq_length 0 cs]
    simp [isComposite, getAllLeaves]

end

/-- C1: for every group, getTaskCount equals the length of getAllLeaves; a
leaf counts as one task and an empty group counts zero. -/
theorem taskCount_eq_flattenedLeaves_length (gid : Nat) (title : String)
    (cs : List TaskComponent) (t : Task) :
    getTaskCount (.group gid title cs) =
      (getAllLeaves (.group gid title cs)).length ∧
    getTaskCount (.leaf t) = 1 ∧
    getTaskCount (.group gid title []) = 0 := by
  refine ⟨?_, rfl, rfl⟩
  have h := getTaskCount_eq_branch_length (.group gid title cs)
  simpa [isComposite] using h

theorem allIds_eq_cons (c : TaskComponent) :
    allIds c = c.getId :: innerIds c := by
  cases c <;> simp [allIds, getId, innerIds]

mutual

theorem preorder_map_getId (c : TaskComponent) :
    (preorder c).map getId = innerIds c := by
  match c with
  | .leaf t => simp [preorder, innerIds]
  | .group gid title cs =>
    rw [show preorder (.group gid title cs) = preorderList cs from rfl]
    rw [show innerIds (.group gid title cs) = allIdsList cs from rfl]
    exact preorderList_map_getId cs

theorem preorderList_map_getId (cs : List TaskComponent) :
    (preorderList cs).map getId = allIdsList cs := by
  match cs with
  | [] => simp [preorderList, allIdsList]
  | c :: rest =>
    rw [show preorderList (c :: rest) = c :: (preorder c ++ preorderList rest)
        from rfl]
    rw [show allIdsList (c :: rest) = allIds c ++ allIdsList rest from rfl]
    rw [allIds_eq_cons c]
    simp [preorder_map_getId c, preorderList_map_getId rest]

end

mutual

theorem getChild_eq_find_preorder (id : Nat) (c : TaskComponent) :
    getChild id c = (preorder c).find? (fun d => d.getId == id) := by
  match c with
  | .leaf t => simp [getChild, preorder]
  | .group gid title cs =>
    rw [show getChild id (.group gid title cs) = getChildList id cs from rfl]
    rw [show preorder (.group gid title cs) = preorderList cs from rfl]
    exact getChildList_eq_find_preorder id cs

theorem getChildList_eq_find_preorder (id : Nat) (cs : List TaskComponent) :
    getChildList id cs = (preorderList cs).find? (fun d => d.getId == id) := by
  match cs with
  | [] => simp [getChildList, preorderList]
  | c :: rest =>
    rw [show preorderList (c :: rest) = c :: (preorder c ++ preorderList rest)
        from rfl]
    by_cases hid : c.getId = id
    · rw [List.find?_cons_of_pos _ (by simp [hid])]
      simp [getChildList, hid]
    · rw [List.find?_cons_of_neg _ (by simp [hid])]
      rw [List.find?_append]
      rw [← getChild_eq_find_preorder id c]
      rw [← getChildList_eq_find_preorder id rest]
      match c with
      | .leaf tk =>
        rw [show getChild id (.leaf tk) = none from rfl]
        simp [getChildList, hid, isComposite]
      | .group g2 t2 cs2 =>
        cases hgc : getChild id (.group g2 t2 cs2) with
        | none => simp [getChildList, hid, isComposite, hgc]
        | some r => simp [getChildList, hid, isComposite, hgc]

end

theorem getChildList_eq_none_iff (id : Nat) (cs : List TaskComponent) :
    getChildList id cs = none ↔ id ∉ allIdsList cs := by
  rw [getChildList_eq_find_preorder, List.find?_eq_none,
    ← preorderList_map_getId]
  simp [List.mem_map]

/-- C5 counterexample: in a tree whose first child is a group containing a
component with id 2 titled deep, and whose second, direct child also has id 2
and is titled shallow, getChild 2 returns the nested component, not the direct
child that a direct-children-first order would return. -/
theorem getChild_cex_returns_nested_before_direct :
    (∃ cs, shadowTree = .group 0 "root" cs ∧
      ∃ c ∈ cs, c.getId = 2 ∧ titleOf c = "shallow") ∧
    (getChild 2 shadowTree).map titleOf = some "deep" ∧
    ("deep" : String) ≠ "shallow" := by
  refine ⟨⟨_, rfl, .leaf (mkTask 2 "shallow"), by simp [shadowTree], rfl, rfl⟩,
    rfl, by decide⟩

/-- C5 amended: getChild is a pre-order depth-first search in which each direct
child is compared and, when it is a group, fully searched before the next
sibling is examined; it returns the first component of that pre-order whose id
matches, and returns none exactly when no descendant carries the id. -/
theorem getChild_preorder_semantics (id gid : Nat) (title : String)
    (cs : List TaskComponent) :
    getChild id (.group gid title cs) =
      (preorder (.group gid title cs)).find? (fun d => d.getId == id) ∧
    (getChild id (.group gid title cs) = none ↔ id ∉ allIdsList cs) :=
  ⟨getChild_eq_find_preorder id _, getChildList_eq_none_iff id cs⟩

-- Step lemmas for the remove operation (defined by well-founded recursion).

theorem removeComp_leaf (id : Nat) (t : Task) :
    removeComp id (.leaf t) = (.leaf t, false) := by
  rw [removeComp]

theorem removeComp_group (id gid : Nat) (title : String)
    (cs : List TaskComponent) :
    removeComp id (.group gid title cs) =
      (.group gid title (removeGroup id cs).1, (removeGroup id cs).2) := by
  rw [removeComp]

theorem filter_length_eq_iff (id : Nat) (cs : List TaskComponent) :
    ((cs.filter (fun c => !(c.getId == id))).length = cs.length) ↔
      ∀ c ∈ cs, c.getId ≠ id := by
  constructor
  · intro h
    have hfe : cs.filter (fun c => !(c.getId == id)) = cs :=
      List.Sublist.eq_of_length (List.filter_sublist cs) h
    intro c hc
    have := List.filter_eq_self.mp hfe c hc
    simpa using this
  · intro h
    have hfe : cs.filter (fun c => !(c.getId == id)) = cs :=
      List.filter_eq_self.mpr (fun a ha => by simpa using h a ha)
    rw [hfe]

theorem removeGroup_of_no_direct (id : Nat) (cs : List TaskComponent)
    (h : ∀ c ∈ cs, c.getId ≠ id) :
    removeGroup id cs = removeSub id cs := by
  have hlen := (filter_length_eq_iff id cs).mpr h
  have hfe : cs.filter (fun c => !(c.getId == id)) = cs :=
    List.Sublist.eq_of_length (List.filter_sublist cs) hlen
  rw [removeGroup, dif_pos hlen, hfe]

theorem removeGroup_of_direct (id : Nat) (cs : List TaskComponent)
    (h : ¬ ((cs.filter (fun c => !(c.getId == id))).length = cs.length)) :
    removeGroup id cs = (cs.filter (fun c => !(c.getId == id)), true) := by
  rw [removeGroup, dif_neg h]

theorem removeSub_nil (id : Nat) : removeSub id [] = ([], false) := by
  rw [removeSub]

theorem removeSub_cons_comp_true (id : Nat) (c : TaskComponent)
    (rest : List TaskComponent) (hcomp : c.isComposite = true)
    (hsnd : (removeComp id c).2 = true) :
    removeSub id (c :: rest) = ((removeComp id c).1 :: rest, true) := by
  rw [removeSub, if_pos hcomp, if_pos hsnd]

theorem removeSub_cons_comp_false (id : Nat) (c : TaskComponent)
    (rest : List TaskComponent) (hcomp : c.isComposite = true)
    (hsnd : (removeComp id c).2 = false) :
    removeSub id (c :: rest) =
      ((removeComp id c).1 :: (removeSub id rest).1, (removeSub id rest).2) := by
  rw [removeSub, if_pos hcomp, if_neg (by simp [hsnd])]

theorem removeSub_cons_leaf (id : Nat) (c : TaskComponent)
    (rest : List TaskComponent) (hcomp : ¬ (c.isComposite = true)) :
    removeSub id (c :: rest) =
      (c :: (removeSub id rest).1, (removeSub id rest).2) := by
  rw [removeSub, if_neg hcomp]

-- Basic facts about the id lists.

theorem mem_allIdsList_iff (id : Nat) (cs : List TaskComponent) :
    id ∈ allIdsList cs ↔ ∃ c ∈ cs, id ∈ allIds c := by
  induction cs with
  | nil => simp [allIdsList]
  | cons c rest ih => simp [allIdsList, ih]

theorem allIdsList_sublist {cs' cs : List TaskComponent} (h : cs'.Sublist cs) :
    (allIdsList cs').Sublist (allIdsList cs) := by
  induction h with
  | slnil => exact List.Sublist.refl _
  | cons c _ ih => exact ih.trans (List.sublist_append_right _ _)
  | cons₂ c _ ih => exact ih.append_left _

theorem innerIds_of_not_composite (c : TaskComponent)
    (h : ¬ (c.isComposite = true)) : innerIds c = [] := by
  cases c with
  | leaf t => rfl
  | group gid title cs => simp [isComposite] at h

mutual

theorem removeComp_snd_iff (id : Nat) (c : TaskComponent) :
    (removeComp id c).2 = true ↔ id ∈ innerIds c := by
  match c with
  | .leaf t => simp [removeComp_leaf, innerIds]
  | .group gid title cs =>
    rw [removeComp_group]
    rw [show innerIds (.group gid title cs) = allIdsList cs from rfl]
    exact removeGroup_snd_iff id cs

theorem removeGroup_snd_iff (id : Nat) (cs : List TaskComponent) :
    (removeGroup id cs).2 = true ↔ id ∈ allIdsList cs := by
  by_cases h : (cs.filter (fun c => !(c.getId == id))).length = cs.length
  · have hall := (filter_length_eq_iff id cs).mp h
    rw [removeGroup_of_no_direct id cs hall]
    rw [removeSub_snd_iff id cs]
    rw [mem_allIdsList_iff]
    constructor
    · rintro ⟨c, hc, hin⟩
      refine ⟨c, hc, ?_⟩
      rw [allIds_eq_cons]
      exact List.mem_cons_of_mem _ hin
    · rintro ⟨c, hc, hin⟩
      rw [allIds_eq_cons] at hin
      rcases List.mem_cons.mp hin with he | hin
      · exact absurd he.symm (hall c hc)
      · exact ⟨c, hc, hin⟩
  · rw [removeGroup_of_direct id cs h]
    have hex : ∃ c ∈ cs, c.getId = id := by
      by_contra hno
      push_neg at hno
      exact h ((filter_length_eq_iff id cs).mpr hno)
    rcases hex with ⟨c, hc, hce⟩
    constructor
    · intro _
      refine (mem_allIdsList_iff id cs).mpr ⟨c, hc, ?_⟩
      rw [allIds_eq_cons, hce]
      exact List.mem_cons_self _ _
    · intro _
      rfl

theorem removeSub_snd_iff (id : Nat) (cs : List TaskComponent) :
    (removeSub id cs).2 = true ↔ ∃ c ∈ cs, id ∈ innerIds c := by
  match cs with
  | [] => simp [removeSub_nil]
  | c :: rest =>
    by_cases hcomp : c.isComposite = true
    · cases hsnd : (removeComp id c).2 with
      | false =>
        rw [removeSub_cons_comp_false id c rest hcomp hsnd]
        rw [show ((removeComp id c).1 :: (removeSub id rest).1,
            (removeSub id rest).2).2 = (removeSub id rest).2 from rfl]
        rw [removeSub_snd_iff id rest]
        have hni : id ∉ innerIds c := by
          intro hin
          have := (removeComp_snd_iff id c).mpr hin
          rw [hsnd] at this
          cases this
        constructor
        · rintro ⟨d, hd, hin⟩
          exact ⟨d, List.mem_cons_of_mem _ hd, hin⟩
        · rintro ⟨d, hd, hin⟩
          rcases List.mem_cons.mp hd with rfl | hd
          · exact absurd hin hni
          · exact ⟨d, hd, hin⟩
      | true =>
        rw [removeSub_cons_comp_true id c rest hcomp hsnd]
        have hin : id ∈ innerIds c := (removeComp_snd_iff id c).mp hsnd
        constructor
        · intro _
          exact ⟨c, List.mem_cons_self c rest, hin⟩
        · intro _
          rfl
    · rw [removeSub_cons_leaf id c rest hcomp]
      rw [show (c :: (removeSub id rest).1, (removeSub id rest).2).2 =
          (removeSub id rest).2 from rfl]
      rw [removeSub_snd_iff id rest]
      have hie : innerIds c = [] := innerIds_of_not_composite c hcomp
      constructor
      · rintro ⟨d, hd, hin⟩
        exact ⟨d, List.mem_cons_of_mem _ hd, hin⟩
      · rintro ⟨d, hd, hin⟩
        rcases List.mem_cons.mp hd with rfl | hd
        · rw [hie] at hin
          cases hin
        · exact ⟨d, hd, hin⟩

end

mutual

theorem removeComp_fst_of_false (id : Nat) (c : TaskComponent)
    (h : (removeComp id c).2 = false) : (removeComp id c).1 = c := by
  match c with
  | .leaf t => rw [removeComp_leaf]
  | .group gid title cs =>
    rw [removeComp_group] at h ⊢
    rw [removeGroup_fst_of_false id cs h]

theorem removeGroup_fst_of_false (id : Nat) (cs : List TaskComponent)
    (h : (removeGroup id cs).2 = false) : (removeGroup id cs).1 = cs := by
  by_cases hlen : (cs.filter (fun c => !(c.getId == id))).length = cs.length
  · have hall := (filter_length_eq_iff id cs).mp hlen
    rw [removeGroup_of_no_direct id cs hall] at h ⊢
    exact removeSub_fst_of_false id cs h
  · rw [removeGroup_of_direct id cs hlen] at h
    cases h

theorem removeSub_fst_of_false (id : Nat) (cs : List TaskComponent)
    (h : (removeSub id cs).2 = false) : (removeSub id cs).1 = cs := by
  match cs with
  | [] => rw [removeSub_nil]
  | c :: rest =>
    by_cases hcomp : c.isComposite = true
    · cases hsnd : (removeComp id c).2 with
      | false =>
        rw [removeSub_cons_comp_false id c rest hcomp hsnd] at h ⊢
        rw [removeComp_fst_of_false id c hsnd]
        rw [removeSub_fst_of_false id rest h]
      | true =>
        rw [removeSub_cons_comp_true id c rest hcomp hsnd] at h
        cases h
    · rw [removeSub_cons_leaf id c rest hcomp] at h ⊢
      rw [removeSub_fst_of_false id rest h]

end

theorem filter_not_mem (id : Nat) (cs : List TaskComponent)
    (hnd : (allIdsList cs).Nodup) (hex : ∃ c ∈ cs, c.getId = id) :
    id ∉ allIdsList (cs.filter (fun c => !(c.getId == id))) := by
  induction cs with
  | nil => simp at hex
  | cons c rest ih =>
    rw [show allIdsList (c :: rest) = allIds c ++ allIdsList rest from rfl]
      at hnd
    have hdisj := List.disjoint_of_nodup_append hnd
    by_cases hc : c.getId = id
    · rw [List.filter_cons, if_neg (by simp [hc])]
      have hidc : id ∈ allIds c := by
        rw [allIds_eq_cons, hc]
        exact List.mem_cons_self _ _
      intro hmem
      exact hdisj hidc
        ((allIdsList_sublist (List.filter_sublist rest)).subset hmem)
    · rw [List.filter_cons, if_pos (by simp [hc])]
      rcases hex with ⟨d, hd, hdid⟩
      have hdr : d ∈ rest := by
        rcases List.mem_cons.mp hd with rfl | hr
        · exact absurd hdid hc
        · exact hr
      have hidr : id ∈ allIdsList rest := by
        refine (mem_allIdsList_iff id rest).mpr ⟨d, hdr, ?_⟩
        rw [allIds_eq_cons, hdid]
        exact List.mem_cons_self _ _
      have hnc : id ∉ allIds c := fun hmem => hdisj hmem hidr
      have ihr := ih hnd.of_append_right ⟨d, hdr, hdid⟩
      rw [show allIdsList (c :: rest.filter (fun x => !(x.getId == id))) =
          allIds c ++ allIdsList (rest.filter (fun x => !(x.getId == id)))
          from rfl]
      intro hmem
      rcases List.mem_append.mp hmem with hm | hm
      · exact hnc hm
      · exact ihr hm

mutual

theorem removeComp_not_mem (id : Nat) (c : TaskComponent)
    (hnd : (innerIds c).Nodup) (hne : c.getId ≠ id) :
    id ∉ allIds (removeComp id c).1 := by
  match c with
  | .leaf t =>
    rw [removeComp_leaf]
    rw [show allIds (TaskComponent.leaf t) = [t.id] from rfl]
    simpa using fun he => hne he.symm
  | .group gid title cs =>
    rw [removeComp_group]
    rw [show allIds (.group gid title (removeGroup id cs).1) =
        gid :: allIdsList (removeGroup id cs).1 from rfl]
    intro hmem
    rcases List.mem_cons.mp hmem with he | hm
    · exact hne he.symm
    · exact removeGroup_not_mem id cs hnd hm

theorem removeGroup_not_mem (id : Nat) (cs : List TaskComponent)
    (hnd : (allIdsList cs).Nodup) :
    id ∉ allIdsList (removeGroup id cs).1 := by
  by_cases h : (cs.filter (fun c => !(c.getId == id))).length = cs.length
  · have hall := (filter_length_eq_iff id cs).mp h
    rw [removeGroup_of_no_direct id cs hall]
    exact removeSub_not_mem id cs hnd hall
  · rw [removeGroup_of_direct id cs h]
    have hex : ∃ c ∈ cs, c.getId = id := by
      by_contra hno
      push_neg at hno
      exact h ((filter_length_eq_iff id cs).mpr hno)
    exact filter_not_mem id cs hnd hex

theorem removeSub_not_mem (id : Nat) (cs : List TaskComponent)
    (hnd : (allIdsList cs).Nodup) (hall : ∀ c ∈ cs, c.getId ≠ id) :
    id ∉ allIdsList (removeSub id cs).1 := by
  match cs with
  | [] =>
    rw [removeSub_nil]
    simp [allIdsList]
  | c :: rest =>
    rw [show allIdsList (c :: rest) = allIds c ++ allIdsList rest from rfl]
      at hnd
    have hdisj := List.disjoint_of_nodup_append hnd
    have hndc : (innerIds c).Nodup := by
      have h1 : (allIds c).Nodup := hnd.of_append_left
      rw [allIds_eq_cons] at h1
      exact h1.of_cons
    have hrest : ∀ d ∈ rest, d.getId ≠ id :=
      fun d hd => hall d (List.mem_cons_of_mem _ hd)
    have hcne : c.getId ≠ id := hall c (List.mem_cons_self _ _)
    by_cases hcomp : c.isComposite = true
    · cases hsnd : (removeComp id c).2 with
      | false =>
        rw [removeSub_cons_comp_false id c rest hcomp hsnd]
        rw [removeComp_fst_of_false id c hsnd]
        rw [show allIdsList (c :: (removeSub id rest).1) =
            allIds c ++ allIdsList (removeSub id rest).1 from rfl]
        intro hmem
        rcases List.mem_append.mp hmem with hm | hm
        · rw [allIds_eq_cons] at hm
          rcases List.mem_cons.mp hm with he | hm
          · exact hcne he.symm
          · have := (removeComp_snd_iff id c).mpr hm
            rw [hsnd] at this
            cases this
        · exact removeSub_not_mem id rest hnd.of_append_right hrest hm
      | true =>
        rw [removeSub_cons_comp_true id c rest hcomp hsnd]
        rw [show allIdsList ((removeComp id c).1 :: rest) =
            allIds (removeComp id c).1 ++ allIdsList rest from rfl]
        intro hmem
        rcases List.mem_append.mp hmem with hm | hm
        · exact removeComp_not_mem id c hndc hcne hm
        · have hin : id ∈ innerIds c := (removeComp_snd_iff id c).mp hsnd
          have hidc : id ∈ allIds c := by
            rw [allIds_eq_cons]
            exact List.mem_cons_of_mem _ hin
          exact hdisj hidc hm
    · rw [removeSub_cons_leaf id c rest hcomp]
      rw [show allIdsList (c :: (removeSub id rest).1) =
          allIds c ++ allIdsList (removeSub id rest).1 from rfl]
      intro hmem
      rcases List.mem_append.mp hmem with hm | hm
      · rw [allIds_eq_cons] at hm
        rcases List.mem_cons.mp hm with he | hm
        · exact hcne he.symm
        · rw [innerIds_of_not_composite c hcomp] at hm
          cases hm
      · exact removeSub_not_mem id rest hnd.of_append_right hrest hm

end

/-- C2: in a tree with unique ids, removing an id that occurs in the tree and
then searching for it from the same root returns none. -/
theorem remove_then_getChild_none (gid : Nat) (title : String)
    (cs : List TaskComponent) (id : Nat)
    (hnd : (allIds (.group gid title cs)).Nodup)
    (hmem : id ∈ allIds (.group gid title cs)) :
    getChild id (removeComp id (.group gid title cs)).1 = none := by
  rw [removeComp_group]
  rw [show getChild id (.group gid title (removeGroup id cs).1) =
      getChildList id (removeGroup id cs).1 from rfl]
  rw [getChildList_eq_none_iff]
  have hnd' : (allIdsList cs).Nodup := by
    rw [show allIds (.group gid title cs) = gid :: allIdsList cs from rfl]
      at hnd
    exact hnd.of_cons
  exact removeGroup_not_mem id cs hnd'

/-- C2 witness: the theorem instantiated at a concrete two-level tree with ids
0, 1, 2, 3 and the removed id 3. -/
theorem remove_then_getChild_none_witness :
    getChild 3 (removeComp 3 sampleTree).1 = none :=
  remove_then_getChild_none 0 "root"
    [.leaf (mkTask 1 "a"), .group 2 "sub" [.leaf (mkTask 3 "b")]] 3
    (by decide) (by decide)

end TaskComponent

end TaskApp
